import Mathlib

/-
  Verification of the dyliswap AMM program (src/program/src/processor.rs and
  src/program/src/instruction.rs) against its natural-language specification.

  Shallow embedding conventions:
  * u64 / u128 machine integers are embedded as Nat together with explicit
    bound checks: Rust `checked_add` / `checked_sub` / `checked_mul` /
    `checked_div` become the Option-valued operations cAdd / cSub / cMul /
    cDiv below, with the width (2^64 or 2^128) passed explicitly where the
    width matters.  A Rust `as u64` narrowing cast becomes `% U64`.
  * Fallible handlers return `Except AppError`; an error result models a
    failed instruction, which the host ledger rolls back, so an `Except.error`
    leaves the (explicitly threaded) state unchanged by construction.
  * Solana account plumbing (program-ownership of accounts, signer flags,
    program-derived treasurer addresses) is embedded as boolean/key
    parameters: the handler observes exactly the outcome of each comparison
    that the source performs.  Public keys are embedded as Nat.
-/

/-- Error kinds of the program (`AppError` in the source), plus
`UninitAccount`, which models the host error raised by `Pack::unpack`
when a record's data is not yet marked as set up. -/
inductive AppError where
  | InvalidInstruction
  | IncorrectProgramId
  | ConstructorOnce
  | InvalidOwner
  | UnmatchedPool
  | NotInit
  | IncorrectNetworkId
  | ZeroValue
  | InsufficientFunds
  | Overflow
  | UninitAccount
deriving DecidableEq, Repr

/-- 2^64, the number of values of a u64. -/
def U64 : Nat := 2 ^ 64

/-- 2^128, the number of values of a u128. -/
def U128 : Nat := 2 ^ 128

/-- `const FEE: u64 = 2500000` (processor.rs). -/
def FEE : Nat := 2500000

/-- `const EARN: u64 = 500000` (processor.rs). -/
def EARN : Nat := 500000

/-- `const FEE_DECIMALS: u64 = 1000000000` (processor.rs). -/
def FEE_DECIMALS : Nat := 1000000000

/-- Rust `opt.ok_or(err)?` plumbing: lift an `Option` into `Except`,
failing with the given error kind. -/
def okOr : Option α → AppError → Except AppError α
  | some a, _ => .ok a
  | none, e => .error e

/-- Rust `a.checked_add(b)` at width `w` (`w` = `U64` or `U128`). -/
def cAdd (w a b : Nat) : Option Nat := if a + b < w then some (a + b) else none

/-- Rust `a.checked_sub(b)` on unsigned integers: `none` on underflow. -/
def cSub (a b : Nat) : Option Nat := if b ≤ a then some (a - b) else none

/-- Rust `a.checked_mul(b)` at width `w`. -/
def cMul (w a b : Nat) : Option Nat := if a * b < w then some (a * b) else none

/-- Rust `a.checked_div(b)`: `none` exactly on division by zero. -/
def cDiv (a b : Nat) : Option Nat := if b = 0 then none else some (a / b)

/-- `Processor::apply_fee(new_ask_reserve, ask_reserve, is_primary)`
(processor.rs lines 633-653), embedded step by step: the gross payout is
`ask_reserve.checked_sub(new_ask_reserve)`; `fee` and `earn` are computed in
u128 and narrowed with `as u64` (here `% U64`); `earn` is zeroed for a
primary ask mint; the returned tuple is
`(new_ask_reserve_with_fee, paid_amount_with_fee, fee, earn)`. -/
def applyFee (newAskReserve askReserve : Nat) (isPrimary : Bool) :
    Option (Nat × Nat × Nat × Nat) :=
  (cSub askReserve newAskReserve).bind fun gross =>
  (cMul U128 gross FEE).bind fun f1 =>
  (cDiv f1 FEE_DECIMALS).bind fun f2 =>
  let fee := f2 % U64
  (cMul U128 gross EARN).bind fun e1 =>
  (cDiv e1 FEE_DECIMALS).bind fun e2 =>
  let earn := if isPrimary then 0 else e2 % U64
  (cAdd U64 newAskReserve fee).bind fun nawf =>
  (cSub gross fee).bind fun d1 =>
  (cSub d1 earn).bind fun paid =>
  some (nawf, paid, fee, earn)

lemma cSub_pos (h : b ≤ a) : cSub a b = some (a - b) := if_pos h

lemma cSub_neg (h : a < b) : cSub a b = none := by
  unfold cSub; rw [if_neg (by omega)]

lemma cMul_pos (h : a * b < w) : cMul w a b = some (a * b) := if_pos h

lemma cAdd_pos (h : a + b < w) : cAdd w a b = some (a + b) := if_pos h

lemma cDiv_pos (h : b ≠ 0) : cDiv a b = some (a / b) := if_neg h

lemma div_add_div_le (a b c : Nat) (hc : 0 < c) :
    a / c + b / c ≤ (a + b) / c := by
  rw [Nat.le_div_iff_mul_le hc, Nat.add_mul]
  exact Nat.add_le_add (Nat.div_mul_le_self a c) (Nat.div_mul_le_self b c)

/-- The trading fee and the protocol earn together never exceed the gross
amount: `floor(g*FEE/DEN) + floor(g*EARN/DEN) ≤ g` because `FEE + EARN ≤ DEN`. -/
lemma fee_add_earn_le (g : Nat) :
    g * FEE / FEE_DECIMALS + g * EARN / FEE_DECIMALS ≤ g := by
  have h1 : g * FEE / FEE_DECIMALS + g * EARN / FEE_DECIMALS ≤
      (g * FEE + g * EARN) / FEE_DECIMALS :=
    div_add_div_le _ _ _ (by norm_num [FEE_DECIMALS])
  have h2 : g * FEE + g * EARN ≤ g * FEE_DECIMALS := by
    rw [← Nat.mul_add]
    exact Nat.mul_le_mul_left g (by norm_num [FEE, EARN, FEE_DECIMALS])
  calc g * FEE / FEE_DECIMALS + g * EARN / FEE_DECIMALS
      ≤ (g * FEE + g * EARN) / FEE_DECIMALS := h1
    _ ≤ g * FEE_DECIMALS / FEE_DECIMALS := Nat.div_le_div_right h2
    _ = g := Nat.mul_div_cancel g (by norm_num [FEE_DECIMALS])

lemma fee_le (g : Nat) : g * FEE / FEE_DECIMALS ≤ g :=
  le_trans (Nat.le_add_right _ _) (fee_add_earn_le g)

lemma earn_le (g : Nat) : g * EARN / FEE_DECIMALS ≤ g :=
  le_trans (Nat.le_add_left _ _) (fee_add_earn_le g)

/-- Closed form of `apply_fee` on u64-ranged inputs with
`new_ask_reserve ≤ ask_reserve`: every internal checked operation succeeds and
the result is the floor-division fee split. -/
lemma applyFee_some (n o : Nat) (p : Bool) (hn : n < U64) (ho : o < U64)
    (h : n ≤ o) :
    applyFee n o p = some (n + (o - n) * FEE / FEE_DECIMALS,
      (o - n) - (o - n) * FEE / FEE_DECIMALS -
        (if p then 0 else (o - n) * EARN / FEE_DECIMALS),
      (o - n) * FEE / FEE_DECIMALS,
      if p then 0 else (o - n) * EARN / FEE_DECIMALS) := by
  have hg : o - n < U64 := by omega
  have hfe := fee_add_earn_le (o - n)
  have hfee : (o - n) * FEE / FEE_DECIMALS ≤ o - n := fee_le (o - n)
  have hearn : (o - n) * EARN / FEE_DECIMALS ≤ o - n := earn_le (o - n)
  have hm1 : (o - n) * FEE < U128 := by
    have : (o - n) * FEE < U64 * U64 :=
      Nat.mul_lt_mul_of_lt_of_lt hg (by norm_num [FEE, U64])
    simpa [U64, U128, ← pow_add] using this
  have hm2 : (o - n) * EARN < U128 := by
    have : (o - n) * EARN < U64 * U64 :=
      Nat.mul_lt_mul_of_lt_of_lt hg (by norm_num [EARN, U64])
    simpa [U64, U128, ← pow_add] using this
  have hden : FEE_DECIMALS ≠ 0 := by norm_num [FEE_DECIMALS]
  have hmodf : (o - n) * FEE / FEE_DECIMALS % U64 =
      (o - n) * FEE / FEE_DECIMALS := Nat.mod_eq_of_lt (by omega)
  have hmode : (o - n) * EARN / FEE_DECIMALS % U64 =
      (o - n) * EARN / FEE_DECIMALS := Nat.mod_eq_of_lt (by omega)
  have hadd : n + (o - n) * FEE / FEE_DECIMALS < U64 := by omega
  cases p with
  | false =>
    simp only [applyFee, cSub_pos h, cMul_pos hm1, cDiv_pos hden, cMul_pos hm2,
      Option.some_bind, hmodf, hmode, Bool.false_eq_true, if_false, ite_false,
      cAdd_pos hadd, cSub_pos hfee, cSub_pos (show (o - n) * EARN / FEE_DECIMALS ≤
        (o - n) - (o - n) * FEE / FEE_DECIMALS by omega)]
  | true =>
    simp only [applyFee, cSub_pos h, cMul_pos hm1, cDiv_pos hden, cMul_pos hm2,
      Option.some_bind, hmodf, hmode, if_true, ite_true,
      cAdd_pos hadd, cSub_pos hfee,
      cSub_pos (show 0 ≤ (o - n) - (o - n) * FEE / FEE_DECIMALS from Nat.zero_le _)]

/-- `apply_fee` fails immediately when the new reserve exceeds the old one. -/
lemma applyFee_none (n o : Nat) (p : Bool) (h : o < n) :
    applyFee n o p = none := by
  simp [applyFee, cSub_neg h]

/-- C1: `apply_fee(new_reserve_without_fee, old_reserve, is_primary_target)`
on u64 inputs with `new ≤ old` returns `fee = floor(gross*2500000/10^9)`,
`earn = 0` for a primary target and `floor(gross*500000/10^9)` otherwise,
`payout = gross - fee - earn`, and `new_reserve_with_fee = new + fee`, with
`gross = old - new`; it returns `None` when `new > old` (and in the case of a
payout underflow, which in fact never occurs, as the success equation shows). -/
theorem applyFee_correct (n o : Nat) (p : Bool) (hn : n < U64) (ho : o < U64) :
    (n ≤ o → applyFee n o p = some (n + (o - n) * FEE / FEE_DECIMALS,
      (o - n) - (o - n) * FEE / FEE_DECIMALS -
        (if p then 0 else (o - n) * EARN / FEE_DECIMALS),
      (o - n) * FEE / FEE_DECIMALS,
      if p then 0 else (o - n) * EARN / FEE_DECIMALS)) ∧
    (o < n → applyFee n o p = none) :=
  ⟨fun h => applyFee_some n o p hn ho h, fun h => applyFee_none n o p h⟩

/-- Witness for C1 at `new = 0`, `old = 10^9`, non-primary target. -/
theorem applyFee_correct_witness :
    applyFee 0 1000000000 false = some (0 + (1000000000 - 0) * FEE / FEE_DECIMALS,
      (1000000000 - 0) - (1000000000 - 0) * FEE / FEE_DECIMALS -
        (if false then 0 else (1000000000 - 0) * EARN / FEE_DECIMALS),
      (1000000000 - 0) * FEE / FEE_DECIMALS,
      if false then 0 else (1000000000 - 0) * EARN / FEE_DECIMALS) :=
  (applyFee_correct 0 1000000000 false (by norm_num [U64]) (by norm_num [U64])).1
    (by norm_num)

/-- C10: whenever `apply_fee` succeeds, its outputs split the old reserve
exactly: `new_reserve_with_fee + payout + earn = old_reserve`.  The fee split
neither creates nor destroys a unit of the ask asset. -/
theorem applyFee_conserves (n o : Nat) (p : Bool) (a b c d : Nat)
    (hn : n < U64) (ho : o < U64)
    (h : applyFee n o p = some (a, b, c, d)) : a + b + d = o := by
  rcases le_or_lt n o with hle | hlt
  · rw [applyFee_some n o p hn ho hle] at h
    have hfe := fee_add_earn_le (o - n)
    have hfee : (o - n) * FEE / FEE_DECIMALS ≤ o - n := fee_le (o - n)
    simp only [Option.some.injEq, Prod.mk.injEq] at h
    obtain ⟨ha, hb, hc, hd⟩ := h
    cases p <;> simp only [Bool.false_eq_true, ite_true, ite_false] at hb hd <;>
      omega
  · rw [applyFee_none n o p hlt] at h
    exact absurd h (by simp)

/-- Witness for C10 at `new = 0`, `old = 10^9`, non-primary target, where
`apply_fee` returns `(2500000, 997000000, 2500000, 500000)`. -/
theorem applyFee_conserves_witness : 2500000 + 997000000 + 500000 = 1000000000 :=
  applyFee_conserves 0 1000000000 false 2500000 997000000 2500000 500000
    (by norm_num [U64]) (by norm_num [U64]) (by decide)

/-- C8 counterexample: with `is_primary_target = false`, `new = 0`, `old = 1`
we have `gross = 1 > 0`, yet `apply_fee` returns `fee = 0` and `earn = 0`
(both floor divisions vanish below `gross = 400`), so `fee + earn > 0` fails.
This refutes the claim that `fee + earn > 0` whenever `gross > 0`. -/
theorem applyFee_feePos_cex :
    ¬ (∀ n o : Nat, n < U64 → o < U64 → n < o →
      ∀ a b c d, applyFee n o false = some (a, b, c, d) → 0 < c + d) := by
  intro h
  have := h 0 1 (by norm_num [U64]) (by norm_num [U64]) (by norm_num)
    0 1 0 0 (by decide)
  omega

/-- C8 (amended): with `is_primary_target = true`, `earn = 0` always; with
`is_primary_target = false`, `fee + earn > 0` whenever `gross ≥ 400`
(the smallest gross at which `floor(gross*2500000/10^9) > 0`). -/
theorem applyFee_feePos (n o : Nat) (hn : n < U64) (ho : o < U64) :
    (∀ a b c d, applyFee n o true = some (a, b, c, d) → d = 0) ∧
    (n ≤ o → 400 ≤ o - n →
      applyFee n o false = some (n + (o - n) * FEE / FEE_DECIMALS,
        (o - n) - (o - n) * FEE / FEE_DECIMALS - (o - n) * EARN / FEE_DECIMALS,
        (o - n) * FEE / FEE_DECIMALS, (o - n) * EARN / FEE_DECIMALS) ∧
      0 < (o - n) * FEE / FEE_DECIMALS + (o - n) * EARN / FEE_DECIMALS) := by
  constructor
  · intro a b c d h
    rcases le_or_lt n o with hle | hlt
    · rw [applyFee_some n o true hn ho hle] at h
      have := congrArg (·.2.2.2) (Option.some.inj h)
      simpa using this.symm
    · rw [applyFee_none n o true hlt] at h
      exact absurd h (by simp)
  · intro hle h400
    have heq := applyFee_some n o false hn ho hle
    simp only [Bool.false_eq_true, if_neg, ite_false] at heq
    refine ⟨heq, ?_⟩
    have hfee : 0 < (o - n) * FEE / FEE_DECIMALS := by
      apply Nat.div_pos _ (by norm_num [FEE_DECIMALS])
      calc FEE_DECIMALS = 400 * FEE := by norm_num [FEE, FEE_DECIMALS]
        _ ≤ (o - n) * FEE := Nat.mul_le_mul_right FEE h400
    exact Nat.lt_of_lt_of_le hfee (Nat.le_add_right _ _)

/-- Witness for the amended C8 at `new = 0`, `old = 400`. -/
theorem applyFee_feePos_witness :
    applyFee 0 400 false = some (0 + (400 - 0) * FEE / FEE_DECIMALS,
      (400 - 0) - (400 - 0) * FEE / FEE_DECIMALS - (400 - 0) * EARN / FEE_DECIMALS,
      (400 - 0) * FEE / FEE_DECIMALS, (400 - 0) * EARN / FEE_DECIMALS) ∧
    0 < (400 - 0) * FEE / FEE_DECIMALS + (400 - 0) * EARN / FEE_DECIMALS :=
  (applyFee_feePos 0 400 (by norm_num [U64]) (by norm_num [U64])).2
    (by norm_num) (by norm_num)

/-- The typed operation requests produced by the decoder
(`AppInstruction` in instruction.rs; names shortened). -/
inductive AppInstruction where
  | initPool (reserve : Nat) (lpt : Nat)
  | initLPT
  | addLiq (reserve : Nat)
  | removeLiq (lpt : Nat)
  | swapOp (amount : Nat)
  | vote
  | closeLPT
deriving DecidableEq, Repr

/-- Rust slice indexing `rest.get(a..b)`: `some` of the sub-slice exactly when
`a ≤ b ≤ rest.len()`.  (`rest.get(..b)` is `getRange rest 0 b`.) -/
def getRange (bs : List Nat) (a b : Nat) : Option (List Nat) :=
  if a ≤ b ∧ b ≤ bs.length then some ((bs.drop a).take (b - a)) else none

/-- Value of a little-endian byte sequence: `u64::from_le_bytes` /
`u128::from_le_bytes` on the embedded byte list (head = least significant). -/
def leNum (bs : List Nat) : Nat := bs.foldr (fun b acc => b + 256 * acc) 0

/-- `AppInstruction::unpack` (instruction.rs lines 16-63): split off the tag
byte, then decode the fixed-width little-endian payload demanded by the tag;
any failure is `InvalidInstruction`. -/
def unpack (ins : List Nat) : Except AppError AppInstruction :=
  match ins with
  | [] => .error .InvalidInstruction
  | tag :: rest =>
    if tag = 0 then
      match getRange rest 0 8 with
      | none => .error .InvalidInstruction
      | some r1 =>
        match getRange rest 8 24 with
        | none => .error .InvalidInstruction
        | some r2 => .ok (.initPool (leNum r1) (leNum r2))
    else if tag = 1 then .ok .initLPT
    else if tag = 2 then
      match getRange rest 0 8 with
      | none => .error .InvalidInstruction
      | some r1 => .ok (.addLiq (leNum r1))
    else if tag = 3 then
      match getRange rest 0 16 with
      | none => .error .InvalidInstruction
      | some r1 => .ok (.removeLiq (leNum r1))
    else if tag = 4 then
      match getRange rest 0 8 with
      | none => .error .InvalidInstruction
      | some r1 => .ok (.swapOp (leNum r1))
    else if tag = 6 then .ok .vote
    else if tag = 7 then .ok .closeLPT
    else .error .InvalidInstruction

lemma getRange_pos (bs : List Nat) (a b : Nat) (hab : a ≤ b)
    (hb : b ≤ bs.length) : getRange bs a b = some ((bs.drop a).take (b - a)) :=
  if_pos ⟨hab, hb⟩

lemma getRange_neg (bs : List Nat) (a b : Nat) (hb : bs.length < b) :
    getRange bs a b = none := by
  unfold getRange
  rw [if_neg (by omega)]

/-- C9: decoding succeeds exactly on the recognized tags with sufficiently
long payloads — tag 0 gives `InitializePool` with a u64 little-endian
`reserve` from buffer bytes 1..9 and a u128 little-endian `lpt` from bytes
9..25, tag 2 gives `AddLiquidity` (8 LE bytes), tag 3 gives `RemoveLiquidity`
(16 LE bytes), tag 4 gives `Swap` (8 LE bytes), tags 1, 6, 7 take no
payload — and fails with `InvalidInstruction` on the empty buffer, on any
unrecognized tag (tag 5 included), and on a too-short payload. -/
theorem unpack_correct :
    unpack [] = .error .InvalidInstruction ∧
    (∀ t rest, t ≠ 0 → t ≠ 1 → t ≠ 2 → t ≠ 3 → t ≠ 4 → t ≠ 6 → t ≠ 7 →
      unpack (t :: rest) = .error .InvalidInstruction) ∧
    (∀ rest : List Nat, 24 ≤ rest.length →
      unpack (0 :: rest) =
        .ok (.initPool (leNum (rest.take 8)) (leNum ((rest.drop 8).take 16)))) ∧
    (∀ rest : List Nat, rest.length < 24 →
      unpack (0 :: rest) = .error .InvalidInstruction) ∧
    (∀ rest : List Nat, unpack (1 :: rest) = .ok .initLPT) ∧
    (∀ rest : List Nat, 8 ≤ rest.length →
      unpack (2 :: rest) = .ok (.addLiq (leNum (rest.take 8)))) ∧
    (∀ rest : List Nat, rest.length < 8 →
      unpack (2 :: rest) = .error .InvalidInstruction) ∧
    (∀ rest : List Nat, 16 ≤ rest.length →
      unpack (3 :: rest) = .ok (.removeLiq (leNum (rest.take 16)))) ∧
    (∀ rest : List Nat, rest.length < 16 →
      unpack (3 :: rest) = .error .InvalidInstruction) ∧
    (∀ rest : List Nat, 8 ≤ rest.length →
      unpack (4 :: rest) = .ok (.swapOp (leNum (rest.take 8)))) ∧
    (∀ rest : List Nat, rest.length < 8 →
      unpack (4 :: rest) = .error .InvalidInstruction) ∧
    (∀ rest : List Nat, unpack (6 :: rest) = .ok .vote) ∧
    (∀ rest : List Nat, unpack (7 :: rest) = .ok .closeLPT) ∧
    (∀ rest : List Nat, unpack (5 :: rest) = .error .InvalidInstruction) := by
  refine ⟨rfl, ?_, ?_, ?_, fun rest => rfl, ?_, ?_, ?_, ?_, ?_, ?_,
    fun rest => rfl, fun rest => rfl, fun rest => rfl⟩
  · intro t rest h0 h1 h2 h3 h4 h6 h7
    simp only [unpack, if_neg h0, if_neg h1, if_neg h2, if_neg h3, if_neg h4,
      if_neg h6, if_neg h7]
  · intro rest h
    simp [unpack, getRange_pos rest 0 8 (by norm_num) (by omega),
      getRange_pos rest 8 24 (by norm_num) h]
  · intro rest h
    rcases Nat.lt_or_ge rest.length 8 with h8 | h8
    · simp [unpack, getRange_neg rest 0 8 h8]
    · simp [unpack, getRange_pos rest 0 8 (by norm_num) h8,
        getRange_neg rest 8 24 h]
  · intro rest h
    simp [unpack, getRange_pos rest 0 8 (by norm_num) h]
  · intro rest h
    simp [unpack, getRange_neg rest 0 8 h]
  · intro rest h
    simp [unpack, getRange_pos rest 0 16 (by norm_num) h]
  · intro rest h
    simp [unpack, getRange_neg rest 0 16 h]
  · intro rest h
    simp [unpack, getRange_pos rest 0 8 (by norm_num) h]
  · intro rest h
    simp [unpack, getRange_neg rest 0 8 h]

/-- Witness for C9: a well-formed tag-2 buffer decodes to `AddLiquidity` with
the 8-byte little-endian payload, and the empty buffer is rejected. -/
theorem unpack_correct_witness :
    unpack [2, 5, 0, 0, 0, 0, 0, 0, 0] =
      .ok (.addLiq (leNum ([5, 0, 0, 0, 0, 0, 0, 0].take 8))) ∧
    unpack [] = .error .InvalidInstruction :=
  ⟨unpack_correct.2.2.2.2.2.1 [5, 0, 0, 0, 0, 0, 0, 0] (by norm_num),
   unpack_correct.1⟩

/-- Lifecycle state of the network record (`NetworkState` in the source,
names shortened to satisfy local naming rules). -/
inductive NetworkState where
  | Uninit
  | Inited
  | Activated
deriving DecidableEq, Repr

/-- The `Network` record: lifecycle `state` and the approved mint list
(slot 0 holds the primary sentinel). -/
structure Network where
  state : NetworkState
  mints : List Nat
deriving DecidableEq, Repr

/-- Modelled from the spec: `Network::primary()` lives in schema/network.rs,
which is not under src/.  The spec (§3) describes it as a fixed sentinel
"primary asset" identifier; we embed it as the constant key 0. -/
def Network.primary : Nat := 0

/-- Modelled from the spec: `network_data.is_approved(mint)` lives in
schema/network.rs, which is not under src/.  Per the spec (§4.4,
InitializePool preconditions), a mint is approved when the network's mint
list contains it. -/
def Network.isApproved (net : Network) (mint : Nat) : Prop := mint ∈ net.mints

instance (net : Network) (mint : Nat) : Decidable (net.isApproved mint) := by
  unfold Network.isApproved; infer_instance

/-- Modelled from the spec: `network_data.is_activated()` lives in
schema/network.rs, which is not under src/.  Per the spec (§3), it holds
exactly in state `Activated`. -/
def Network.isActivated (net : Network) : Prop :=
  net.state = NetworkState.Activated

instance (net : Network) : Decidable net.isActivated := by
  unfold Network.isActivated; infer_instance

/-- The `Pool` record (schema fields as read/written by processor.rs).
`is_initialized` is renamed `inited` here. -/
structure Pool where
  owner : Nat
  network : Nat
  mint : Nat
  treasury : Nat
  reserve : Nat
  lpt : Nat
  fee : Nat
  inited : Bool
deriving DecidableEq, Repr

/-- The `LPT` share-account record. `is_initialized` is renamed `inited`. -/
structure LPT where
  owner : Nat
  pool : Nat
  lpt : Nat
  inited : Bool
deriving DecidableEq, Repr

/-- `AppInstruction::InitializePool` handler (processor.rs lines 64-173).
Boolean parameters record the outcome of the account checks the source
performs: `netProg`/`poolProg`/`lptProg` are `account.owner == program_id`,
`ownerSigner`/`poolSigner`/`lptSigner` are the `is_signer` flags, and
`treasurerOk` is `create_program_address(pool_key) == treasurer_key`
(the derivation itself belongs to the spec's Authorization Gate).
`Network::unpack` demands a network past `Uninit`; the pool and LPT records
are read with `unpack_unchecked` and must not yet be marked `inited`.
Token-transfer calls always succeed in the model; a failing transfer would
abort the operation with no state change, which an `Except.error` also
models. -/
def initPool (reserve lpt : Nat)
    (netProg poolProg lptProg ownerSigner poolSigner lptSigner treasurerOk : Bool)
    (ownerKey networkKey poolKey treasuryKey mintKey : Nat)
    (net : Network) (pool : Pool) (acc : LPT) :
    Except AppError (Network × Pool × LPT) :=
  if netProg = false ∨ poolProg = false ∨ lptProg = false then
    .error .IncorrectProgramId
  else if net.state = NetworkState.Uninit then .error .UninitAccount
  else if pool.inited = true ∨ acc.inited = true then .error .ConstructorOnce
  else if ownerSigner = false ∨ poolSigner = false ∨ lptSigner = false ∨
      treasurerOk = false then .error .InvalidOwner
  else if ¬ net.isApproved mintKey then .error .UnmatchedPool
  else if mintKey ≠ Network.primary ∧ ¬ net.isActivated then .error .NotInit
  else if mintKey = Network.primary ∧ net.isActivated then
    .error .ConstructorOnce
  else if reserve = 0 ∨ lpt = 0 then .error .ZeroValue
  else
    .ok (if mintKey = Network.primary then
          { net with state := NetworkState.Activated } else net,
      { owner := ownerKey, network := networkKey, mint := mintKey,
        treasury := treasuryKey, reserve := reserve, lpt := lpt, fee := FEE,
        inited := true },
      { owner := ownerKey, pool := poolKey, lpt := lpt, inited := true })

/-- `AppInstruction::InitializeLPT` handler (processor.rs lines 175-200):
creates a zero-balance share account bound to the given pool key. -/
def initLPT (poolProg lptProg ownerSigner lptSigner : Bool)
    (ownerKey poolKey : Nat) (acc : LPT) : Except AppError LPT :=
  if poolProg = false ∨ lptProg = false then .error .IncorrectProgramId
  else if acc.inited = true then .error .ConstructorOnce
  else if ownerSigner = false ∨ lptSigner = false then .error .InvalidOwner
  else .ok { owner := ownerKey, pool := poolKey, lpt := 0, inited := true }

/-- `AppInstruction::AddLiquidity` handler (processor.rs lines 202-272):
deposit `reserve`, mint `paid_lpt = pool.lpt * reserve / pool.reserve`
(u128 checked mul/div) to the pool and to the caller's share account. -/
def addLiquidity (reserve : Nat) (poolProg lptProg ownerSigner : Bool)
    (ownerKey poolKey treasuryKey : Nat) (pool : Pool) (acc : LPT) :
    Except AppError (Pool × LPT) :=
  if poolProg = false ∨ lptProg = false then .error .IncorrectProgramId
  else if pool.inited = false then .error .UninitAccount
  else if acc.inited = false then .error .UninitAccount
  else if ownerSigner = false ∨ pool.treasury ≠ treasuryKey ∨
      acc.owner ≠ ownerKey then .error .InvalidOwner
  else if acc.pool ≠ poolKey then .error .UnmatchedPool
  else if reserve = 0 then .error .ZeroValue
  else
    (okOr (cMul U128 pool.lpt reserve) .Overflow).bind fun prod =>
    (okOr (cDiv prod pool.reserve) .Overflow).bind fun paidLpt =>
    (okOr (cAdd U64 pool.reserve reserve) .Overflow).bind fun newReserve =>
    (okOr (cAdd U128 pool.lpt paidLpt) .Overflow).bind fun newPoolLpt =>
    (okOr (cAdd U128 acc.lpt paidLpt) .Overflow).bind fun newAccLpt =>
    .ok ({ pool with reserve := newReserve, lpt := newPoolLpt },
      { acc with lpt := newAccLpt })

/-- `AppInstruction::RemoveLiquidity` handler (processor.rs lines 274-347):
burn `lpt` shares and pay back
`paid_reserve = (pool.reserve * lpt / pool.lpt) as u64` (the source narrows
the u128 quotient with `as u64`, embedded as `% U64`). -/
def removeLiquidity (lpt : Nat) (poolProg lptProg ownerSigner treasurerOk : Bool)
    (ownerKey poolKey treasuryKey : Nat) (pool : Pool) (acc : LPT) :
    Except AppError (Pool × LPT) :=
  if poolProg = false ∨ lptProg = false then .error .IncorrectProgramId
  else if pool.inited = false then .error .UninitAccount
  else if acc.inited = false then .error .UninitAccount
  else if ownerSigner = false ∨ pool.treasury ≠ treasuryKey ∨
      acc.owner ≠ ownerKey ∨ treasurerOk = false then .error .InvalidOwner
  else if acc.pool ≠ poolKey then .error .UnmatchedPool
  else if lpt = 0 then .error .ZeroValue
  else if acc.lpt < lpt then .error .InsufficientFunds
  else
    (okOr (cMul U128 pool.reserve lpt) .Overflow).bind fun prod =>
    (okOr (cDiv prod pool.lpt) .Overflow).bind fun paid128 =>
    (okOr (cSub acc.lpt lpt) .Overflow).bind fun newAccLpt =>
    (okOr (cSub pool.reserve (paid128 % U64)) .Overflow).bind fun newReserve =>
    (okOr (cSub pool.lpt lpt) .Overflow).bind fun newPoolLpt =>
    .ok ({ pool with reserve := newReserve, lpt := newPoolLpt },
      { acc with lpt := newAccLpt })

/-- `AppInstruction::Transfer` handler (processor.rs lines 508-548): move
`lpt` shares between two accounts of the same pool; a transfer to the same
account is accepted and changes nothing.  Note the source checks
`InsufficientFunds` before the same-account early return. -/
def transfer (lpt : Nat) (srcProg dstProg ownerSigner : Bool)
    (ownerKey srcKey dstKey : Nat) (src dst : LPT) :
    Except AppError (LPT × LPT) :=
  if srcProg = false ∨ dstProg = false then .error .IncorrectProgramId
  else if src.inited = false then .error .UninitAccount
  else if dst.inited = false then .error .UninitAccount
  else if ownerSigner = false ∨ src.owner ≠ ownerKey then .error .InvalidOwner
  else if src.pool ≠ dst.pool then .error .UnmatchedPool
  else if lpt = 0 then .error .ZeroValue
  else if src.lpt < lpt then .error .InsufficientFunds
  else if srcKey = dstKey then .ok (src, dst)
  else
    (okOr (cSub src.lpt lpt) .Overflow).bind fun newSrc =>
    (okOr (cAdd U128 dst.lpt lpt) .Overflow).bind fun newDst =>
    .ok ({ src with lpt := newSrc }, { dst with lpt := newDst })

/-- The arithmetic tail of the `Swap` handler, after all account checks and
the same-pool early return (processor.rs lines 404-505): price the ask side
through `curve`, split the fee with `apply_fee` (`res` is its result tuple,
so `res.1` is `new_ask_reserve_with_fee` and `res.2.2.2` is `earn`), and,
when `earn != 0`, price the earn into the settlement pool and deduct it
there.  Returns the updated bid and ask pools and, only when the earn branch
ran, `some` updated settlement pool. -/
def swapCore (curve : Nat → Nat → Nat → Nat → Nat → Option Nat)
    (amount : Nat) (bid ask sen : Pool) :
    Except AppError (Pool × Pool × Option Pool) :=
  (okOr (cAdd U64 bid.reserve amount) .Overflow).bind fun newBidReserve =>
  (okOr (curve newBidReserve bid.reserve bid.lpt ask.reserve ask.lpt)
    .Overflow).bind fun newAskWithoutFee =>
  (okOr (applyFee newAskWithoutFee ask.reserve
    (decide (ask.mint = Network.primary))) .Overflow).bind fun res =>
  (okOr (cAdd U64 res.1 res.2.2.2) .Overflow).bind fun newAskReserve =>
  if res.2.2.2 = 0 then
    .ok ({ bid with reserve := newBidReserve },
      { ask with reserve := newAskReserve }, none)
  else
    (okOr (curve newAskReserve res.1 ask.lpt sen.reserve sen.lpt)
      .Overflow).bind fun earnInSen =>
    (okOr (cSub sen.reserve earnInSen) .Overflow).bind fun newSenReserve =>
    .ok ({ bid with reserve := newBidReserve },
      { ask with reserve := newAskReserve },
      some { sen with reserve := newSenReserve })

/-- `AppInstruction::Swap` handler (processor.rs lines 349-506).  The pricing
function `Curve::curve` lives in helper/curve.rs, which is not under src/;
per the spec (§4.2, §9) its closed form is deliberately unspecified, so the
handler is parameterized by an arbitrary `curve` function with the source's
checked-arithmetic failure convention (`none` aborts with `Overflow`).
Returns the updated bid and ask pools and, when an earn fee is routed,
`some` updated settlement pool (the source only writes the settlement pool
when `earn != 0`). -/
def swap (curve : Nat → Nat → Nat → Nat → Nat → Option Nat) (amount : Nat)
    (bidProg askProg senProg ownerSigner askTreasurerOk senTreasurerOk : Bool)
    (bidKey bidTreasKey askKey askTreasKey senKey senTreasKey : Nat)
    (bid ask sen : Pool) : Except AppError (Pool × Pool × Option Pool) :=
  if bidProg = false ∨ askProg = false ∨ senProg = false then
    .error .IncorrectProgramId
  else if bid.inited = false then .error .UninitAccount
  else if ask.inited = false then .error .UninitAccount
  else if sen.inited = false then .error .UninitAccount
  else if ownerSigner = false ∨ bid.treasury ≠ bidTreasKey ∨
      ask.treasury ≠ askTreasKey ∨ askTreasurerOk = false ∨
      sen.treasury ≠ senTreasKey ∨ senTreasurerOk = false then
    .error .InvalidOwner
  else if sen.network ≠ bid.network ∨ sen.network ≠ ask.network then
    .error .IncorrectNetworkId
  else if amount = 0 then .error .ZeroValue
  else if bidKey = askKey then .ok (bid, ask, none)
  else swapCore curve amount bid ask sen

lemma cSub_some (h : cSub a b = some q) : b ≤ a ∧ q = a - b := by
  unfold cSub at h
  split_ifs at h with hc
  exact ⟨hc, (Option.some.inj h).symm⟩

lemma cAdd_some (h : cAdd w a b = some q) : a + b < w ∧ q = a + b := by
  unfold cAdd at h
  split_ifs at h with hc
  exact ⟨hc, (Option.some.inj h).symm⟩

lemma cMul_some (h : cMul w a b = some q) : a * b < w ∧ q = a * b := by
  unfold cMul at h
  split_ifs at h with hc
  exact ⟨hc, (Option.some.inj h).symm⟩

lemma cDiv_some (h : cDiv a b = some q) : b ≠ 0 ∧ q = a / b := by
  unfold cDiv at h
  split_ifs at h with hc
  exact ⟨hc, (Option.some.inj h).symm⟩

lemma bool_ne_false {b : Bool} (h : ¬ b = false) : b = true := by
  revert h; cases b <;> simp

lemma okOr_bind_ok {α β : Type} {x : Option α} {e : AppError}
    {f : α → Except AppError β} {v : β}
    (h : (okOr x e).bind f = .ok v) : ∃ a, x = some a ∧ f a = .ok v := by
  cases x with
  | none => exact absurd h (by simp [okOr, Except.bind])
  | some a => exact ⟨a, rfl, by simpa [okOr, Except.bind] using h⟩

lemma okOr_some {α : Type} (a : α) (e : AppError) : okOr (some a) e = .ok a :=
  rfl

/-- Inversion of a successful `addLiquidity`: the records were set up, the
share account is bound to the pool, the deposit is positive, and the
post-records are the pre-records with `paid_lpt = pool.lpt * r / pool.reserve`
minted. -/
lemma addLiquidity_ok {r : Nat} {pp lp os : Bool} {oKey pKey tKey : Nat}
    {pool pool' : Pool} {acc acc' : LPT}
    (h : addLiquidity r pp lp os oKey pKey tKey pool acc = .ok (pool', acc')) :
    pool.inited = true ∧ acc.inited = true ∧ acc.pool = pKey ∧ r ≠ 0 ∧
    pool.reserve ≠ 0 ∧ pool.reserve + r < U64 ∧
    pool' = { pool with
      reserve := pool.reserve + r,
      lpt := pool.lpt + pool.lpt * r / pool.reserve } ∧
    acc' = { acc with lpt := acc.lpt + pool.lpt * r / pool.reserve } := by
  unfold addLiquidity at h
  split_ifs at h with h1 h2 h3 h4 h5 h6
  obtain ⟨prod, hm1, h⟩ := okOr_bind_ok h
  obtain ⟨paidLpt, hm2, h⟩ := okOr_bind_ok h
  obtain ⟨newReserve, hm3, h⟩ := okOr_bind_ok h
  obtain ⟨newPoolLpt, hm4, h⟩ := okOr_bind_ok h
  obtain ⟨newAccLpt, hm5, h⟩ := okOr_bind_ok h
  simp only [Except.ok.injEq, Prod.mk.injEq] at h
  obtain ⟨hp, ha⟩ := h
  obtain ⟨hw1, hm1⟩ := cMul_some hm1
  obtain ⟨hz, hm2⟩ := cDiv_some hm2
  obtain ⟨hw3, hm3⟩ := cAdd_some hm3
  obtain ⟨hw4, hm4⟩ := cAdd_some hm4
  obtain ⟨hw5, hm5⟩ := cAdd_some hm5
  subst hm1; subst hm2; subst hm3; subst hm4; subst hm5
  exact ⟨bool_ne_false h2, bool_ne_false h3, by tauto, h6, hz, hw3,
    hp.symm, ha.symm⟩

/-- C3: a successful `AddLiquidity(reserve)` mints
`minted = floor(pool.lpt * reserve / pool.reserve)` computed on the
pre-state, and the post-state satisfies
`pool.reserve' = pool.reserve + reserve`, `pool.lpt' = pool.lpt + minted`,
`account.lpt' = account.lpt + minted`.  (The concrete scenario
reserve=1_000_000, lpt=1_000_000, AddLiquidity(500_000) is checked in the
witness below.) -/
theorem addLiquidity_correct (r : Nat) (pp lp os : Bool)
    (oKey pKey tKey : Nat) (pool pool' : Pool) (acc acc' : LPT)
    (h : addLiquidity r pp lp os oKey pKey tKey pool acc = .ok (pool', acc')) :
    pool'.reserve = pool.reserve + r ∧
    pool'.lpt = pool.lpt + pool.lpt * r / pool.reserve ∧
    acc'.lpt = acc.lpt + pool.lpt * r / pool.reserve := by
  obtain ⟨-, -, -, -, -, -, hp, ha⟩ := addLiquidity_ok h
  subst hp; subst ha
  exact ⟨rfl, rfl, rfl⟩

/-- Witness for C3: the spec's example scenario.  On a pool with
`reserve = 1_000_000`, `lpt = 1_000_000` and an account with 1_000_000
shares, `AddLiquidity(500_000)` mints 500_000 and leaves
`reserve = 1_500_000`, `lpt = 1_500_000`. -/
theorem addLiquidity_correct_witness :
    ({ owner := 1, network := 2, mint := 3, treasury := 4, reserve := 1500000,
       lpt := 1500000, fee := FEE, inited := true } : Pool).reserve =
        1000000 + 500000 ∧
    ({ owner := 1, network := 2, mint := 3, treasury := 4, reserve := 1500000,
       lpt := 1500000, fee := FEE, inited := true } : Pool).lpt =
        1000000 + 1000000 * 500000 / 1000000 ∧
    ({ owner := 1, pool := 5, lpt := 1500000, inited := true } : LPT).lpt =
        1000000 + 1000000 * 500000 / 1000000 := by
  have h := addLiquidity_correct 500000 true true true 1 5 4
    { owner := 1, network := 2, mint := 3, treasury := 4, reserve := 1000000,
      lpt := 1000000, fee := FEE, inited := true }
    { owner := 1, network := 2, mint := 3, treasury := 4, reserve := 1500000,
      lpt := 1500000, fee := FEE, inited := true }
    { owner := 1, pool := 5, lpt := 1000000, inited := true }
    { owner := 1, pool := 5, lpt := 1500000, inited := true }
    (by rfl)
  simpa using h

/-- Inversion of a successful `removeLiquidity`: the checks passed and the
post-records are the pre-records with `lpt` shares burned and
`paid_reserve = (pool.reserve * lpt / pool.lpt) % 2^64` (the source's
`as u64` narrowing) paid out. -/
lemma removeLiquidity_ok {l : Nat} {pp lp os tr : Bool} {oKey pKey tKey : Nat}
    {pool pool' : Pool} {acc acc' : LPT}
    (h : removeLiquidity l pp lp os tr oKey pKey tKey pool acc =
      .ok (pool', acc')) :
    pool.inited = true ∧ acc.inited = true ∧ acc.pool = pKey ∧ l ≠ 0 ∧
    l ≤ acc.lpt ∧ pool.lpt ≠ 0 ∧ l ≤ pool.lpt ∧
    pool.reserve * l / pool.lpt % U64 ≤ pool.reserve ∧
    pool' = { pool with
      reserve := pool.reserve - pool.reserve * l / pool.lpt % U64,
      lpt := pool.lpt - l } ∧
    acc' = { acc with lpt := acc.lpt - l } := by
  unfold removeLiquidity at h
  split_ifs at h with h1 h2 h3 h4 h5 h6 h7
  obtain ⟨prod, hm1, h⟩ := okOr_bind_ok h
  obtain ⟨paid128, hm2, h⟩ := okOr_bind_ok h
  obtain ⟨newAccLpt, hm3, h⟩ := okOr_bind_ok h
  obtain ⟨newReserve, hm4, h⟩ := okOr_bind_ok h
  obtain ⟨newPoolLpt, hm5, h⟩ := okOr_bind_ok h
  simp only [Except.ok.injEq, Prod.mk.injEq] at h
  obtain ⟨hp, ha⟩ := h
  obtain ⟨hw1, hm1⟩ := cMul_some hm1
  obtain ⟨hz, hm2⟩ := cDiv_some hm2
  obtain ⟨hs3, hm3⟩ := cSub_some hm3
  obtain ⟨hs4, hm4⟩ := cSub_some hm4
  obtain ⟨hs5, hm5⟩ := cSub_some hm5
  subst hm1; subst hm2; subst hm3; subst hm4; subst hm5
  exact ⟨bool_ne_false h2, bool_ne_false h3, by tauto, h6,
    by omega, hz, hs5, hs4, hp.symm, ha.symm⟩

/-- C4: a successful `RemoveLiquidity(lpt)` burns the shares and pays out
`payout = floor(pool.reserve * lpt / pool.lpt)` computed on the pre-state:
`account.lpt' = account.lpt - lpt`, `pool.lpt' = pool.lpt - lpt`,
`pool.reserve' = pool.reserve - payout`, with `0 < lpt ≤ account.lpt`.
The pre-reserve is a u64 (`pool.reserve < 2^64`), under which the source's
`as u64` narrowing of the u128 quotient is the identity, because success
forces `lpt ≤ pool.lpt` and hence `payout ≤ pool.reserve`. -/
theorem removeLiquidity_correct (l : Nat) (pp lp os tr : Bool)
    (oKey pKey tKey : Nat) (pool pool' : Pool) (acc acc' : LPT)
    (hres : pool.reserve < U64)
    (h : removeLiquidity l pp lp os tr oKey pKey tKey pool acc =
      .ok (pool', acc')) :
    acc'.lpt = acc.lpt - l ∧ pool'.lpt = pool.lpt - l ∧
    pool'.reserve = pool.reserve - pool.reserve * l / pool.lpt ∧
    0 < l ∧ l ≤ acc.lpt := by
  obtain ⟨-, -, -, hl, hbal, hz, hle, -, hp, ha⟩ := removeLiquidity_ok h
  have hpay : pool.reserve * l / pool.lpt ≤ pool.reserve := by
    calc pool.reserve * l / pool.lpt ≤ pool.reserve * pool.lpt / pool.lpt :=
          Nat.div_le_div_right (Nat.mul_le_mul_left _ hle)
      _ = pool.reserve := Nat.mul_div_cancel _ (Nat.pos_of_ne_zero hz)
  have hmod : pool.reserve * l / pool.lpt % U64 = pool.reserve * l / pool.lpt :=
    Nat.mod_eq_of_lt (by omega)
  subst hp; subst ha
  refine ⟨rfl, rfl, ?_, by omega, hbal⟩
  simp only [hmod]

/-- Witness for C4: the spec's example scenario.  On a pool with
`reserve = 1_500_000`, `lpt = 1_500_000` and an account with 1_500_000
shares, `RemoveLiquidity(750_000)` pays out 750_000 and leaves
`reserve = 750_000`, `lpt = 750_000`. -/
theorem removeLiquidity_correct_witness :
    ({ owner := 1, pool := 5, lpt := 750000, inited := true } : LPT).lpt =
      1500000 - 750000 ∧
    ({ owner := 1, network := 2, mint := 3, treasury := 4, reserve := 750000,
       lpt := 750000, fee := FEE, inited := true } : Pool).lpt =
      1500000 - 750000 ∧
    ({ owner := 1, network := 2, mint := 3, treasury := 4, reserve := 750000,
       lpt := 750000, fee := FEE, inited := true } : Pool).reserve =
      1500000 - 1500000 * 750000 / 1500000 ∧
    0 < 750000 ∧ 750000 ≤ 1500000 := by
  have h := removeLiquidity_correct 750000 true true true true 1 5 4
    { owner := 1, network := 2, mint := 3, treasury := 4, reserve := 1500000,
      lpt := 1500000, fee := FEE, inited := true }
    { owner := 1, network := 2, mint := 3, treasury := 4, reserve := 750000,
      lpt := 750000, fee := FEE, inited := true }
    { owner := 1, pool := 5, lpt := 1500000, inited := true }
    { owner := 1, pool := 5, lpt := 750000, inited := true }
    (by norm_num [U64]) (by rfl)
  simpa using h

lemma bool_ne_true {b : Bool} (h : ¬ b = true) : b = false := by
  revert h; cases b <;> simp

/-- Inversion of a successful `transfer`: checks passed, and either the two
accounts coincide (no-op) or `lpt` shares moved from source to destination. -/
lemma transfer_ok {l : Nat} {sp dp os : Bool} {oKey sKey dKey : Nat}
    {src dst src' dst' : LPT}
    (h : transfer l sp dp os oKey sKey dKey src dst = .ok (src', dst')) :
    src.inited = true ∧ dst.inited = true ∧ src.pool = dst.pool ∧ l ≠ 0 ∧
    l ≤ src.lpt ∧
    ((sKey = dKey ∧ src' = src ∧ dst' = dst) ∨
     (sKey ≠ dKey ∧ src' = { src with lpt := src.lpt - l } ∧
      dst' = { dst with lpt := dst.lpt + l })) := by
  unfold transfer at h
  split_ifs at h with h1 h2 h3 h4 h5 h6 h7 h8
  · simp only [Except.ok.injEq, Prod.mk.injEq] at h
    exact ⟨bool_ne_false h2, bool_ne_false h3, by tauto, h6, by omega,
      Or.inl ⟨h8, h.1.symm, h.2.symm⟩⟩
  · obtain ⟨newSrc, hm1, h⟩ := okOr_bind_ok h
    obtain ⟨newDst, hm2, h⟩ := okOr_bind_ok h
    simp only [Except.ok.injEq, Prod.mk.injEq] at h
    obtain ⟨hs, hd⟩ := h
    obtain ⟨hs1, hm1⟩ := cSub_some hm1
    obtain ⟨hw2, hm2⟩ := cAdd_some hm2
    subst hm1; subst hm2
    exact ⟨bool_ne_false h2, bool_ne_false h3, by tauto, h6, by omega,
      Or.inr ⟨h8, hs.symm, hd.symm⟩⟩

/-- C5: a `RemoveLiquidity(lpt)` or `Transfer(lpt)` whose source share
balance is strictly below `lpt` (with `lpt > 0`) never succeeds for any
combination of check outcomes — so no balance is ever driven below zero —
and, when every earlier check passes, it fails with exactly
`InsufficientFunds`.  In this embedding a failing handler returns
`Except.error` and yields no post-records at all, which models the host's
rollback: no record is mutated. -/
theorem insufficientFunds_safe (l : Nat) (hl : 0 < l)
    (pool : Pool) (acc : LPT) (hacc : acc.lpt < l)
    (src dst : LPT) (hsrc : src.lpt < l) :
    (∀ (pp lp os tr : Bool) (oKey pKey tKey : Nat) (pool' : Pool) (acc' : LPT),
      removeLiquidity l pp lp os tr oKey pKey tKey pool acc ≠
        .ok (pool', acc')) ∧
    (∀ oKey pKey tKey, pool.inited = true → acc.inited = true →
      pool.treasury = tKey → acc.owner = oKey → acc.pool = pKey →
      removeLiquidity l true true true true oKey pKey tKey pool acc =
        .error .InsufficientFunds) ∧
    (∀ (sp dp os : Bool) (oKey sKey dKey : Nat) (src' dst' : LPT),
      transfer l sp dp os oKey sKey dKey src dst ≠ .ok (src', dst')) ∧
    (∀ oKey sKey dKey, src.inited = true → dst.inited = true →
      src.owner = oKey → src.pool = dst.pool →
      transfer l true true true oKey sKey dKey src dst =
        .error .InsufficientFunds) := by
  refine ⟨?_, ?_, ?_, ?_⟩
  · intro pp lp os tr oKey pKey tKey pool' acc' h
    obtain ⟨-, -, -, -, hbal, -⟩ := removeLiquidity_ok h
    omega
  · intro oKey pKey tKey hi1 hi2 ht ho hp
    unfold removeLiquidity
    rw [if_neg (by simp), if_neg (by simp [hi1]), if_neg (by simp [hi2]),
      if_neg (by simp [ht, ho]), if_neg (by simp [hp]), if_neg (by omega),
      if_pos hacc]
  · intro sp dp os oKey sKey dKey src' dst' h
    obtain ⟨-, -, -, -, hbal, -⟩ := transfer_ok h
    omega
  · intro oKey sKey dKey hi1 hi2 ho hp
    unfold transfer
    rw [if_neg (by simp), if_neg (by simp [hi1]), if_neg (by simp [hi2]),
      if_neg (by simp [ho]), if_neg (by simp [hp]), if_neg (by omega),
      if_pos hsrc]

/-- Witness for C5: a pool share account holding 3 shares rejects
`RemoveLiquidity(5)` and `Transfer(5)` with `InsufficientFunds`. -/
theorem insufficientFunds_safe_witness :
    removeLiquidity 5 true true true true 1 5 4
      { owner := 1, network := 2, mint := 3, treasury := 4, reserve := 100,
        lpt := 100, fee := FEE, inited := true }
      { owner := 1, pool := 5, lpt := 3, inited := true } =
      .error .InsufficientFunds ∧
    transfer 5 true true true 1 0 1
      { owner := 1, pool := 5, lpt := 3, inited := true }
      { owner := 2, pool := 5, lpt := 0, inited := true } =
      .error .InsufficientFunds := by
  have h := insufficientFunds_safe 5 (by norm_num)
    { owner := 1, network := 2, mint := 3, treasury := 4, reserve := 100,
      lpt := 100, fee := FEE, inited := true }
    { owner := 1, pool := 5, lpt := 3, inited := true } (by decide)
    { owner := 1, pool := 5, lpt := 3, inited := true }
    { owner := 2, pool := 5, lpt := 0, inited := true } (by decide)
  exact ⟨h.2.1 1 5 4 rfl rfl rfl rfl rfl, h.2.2.2 1 0 1 rfl rfl rfl rfl⟩

/-- Inversion of a successful `initLPT`: the record was fresh and the result
is a zero-balance account bound to the pool key. -/
lemma initLPT_ok {pp lp os ls : Bool} {oKey pKey : Nat} {acc acc' : LPT}
    (h : initLPT pp lp os ls oKey pKey acc = .ok acc') :
    acc.inited = false ∧
    acc' = { owner := oKey, pool := pKey, lpt := 0, inited := true } := by
  unfold initLPT at h
  split_ifs at h with h1 h2 h3
  exact ⟨bool_ne_true h2, (Except.ok.inj h).symm⟩

/-- Inversion of a successful `initPool`: both records were fresh, both
quantities are positive, the network advances to `Activated` exactly when the
mint is the primary one, and the new pool and share account carry `reserve`
and `lpt`. -/
lemma initPool_ok {reserve lpt : Nat} {np pp lp os ps ls tr : Bool}
    {oKey nKey pKey tKey mKey : Nat} {net net' : Network} {pool pool' : Pool}
    {acc acc' : LPT}
    (h : initPool reserve lpt np pp lp os ps ls tr oKey nKey pKey tKey mKey
      net pool acc = .ok (net', pool', acc')) :
    pool.inited = false ∧ acc.inited = false ∧ reserve ≠ 0 ∧ lpt ≠ 0 ∧
    net.state ≠ NetworkState.Uninit ∧
    net' = (if mKey = Network.primary then
      { net with state := NetworkState.Activated } else net) ∧
    pool' = { owner := oKey, network := nKey, mint := mKey,
              treasury := tKey, reserve := reserve, lpt := lpt, fee := FEE,
              inited := true } ∧
    acc' = { owner := oKey, pool := pKey, lpt := lpt, inited := true } := by
  unfold initPool at h
  split_ifs at h with h1 h2 h3 h4 h5 h6 h7 h8 h9 <;>
    simp only [Except.ok.injEq, Prod.mk.injEq] at h <;>
    obtain ⟨hn, hp, ha⟩ := h <;>
    obtain ⟨hpi, hai⟩ := not_or.mp h3 <;>
    obtain ⟨hr, hl⟩ := not_or.mp h8
  · exact ⟨bool_ne_true hpi, bool_ne_true hai, hr, hl, h2,
      by rw [if_pos h9]; exact hn.symm, hp.symm, ha.symm⟩
  · exact ⟨bool_ne_true hpi, bool_ne_true hai, hr, hl, h2,
      by rw [if_neg h9]; exact hn.symm, hp.symm, ha.symm⟩

/-- C6: network-activation gating of `InitializePool` on fresh records with
an approved mint and passing authorization.  With a non-primary mint and a
network that exists but is not yet `Activated` (state `Inited`), the call
fails with `NotInit` (the source's `NotInitialized`); with the primary mint
on an already-`Activated` network it fails with `ConstructorOnce`; a
successful call with the primary mint leaves the network `Activated`; and a
successful call with a non-primary mint leaves the network record untouched.
Hence `Activated` is set exactly once, by the primary pool's creation. -/
theorem initPool_activation (reserve lpt : Nat) (oKey nKey pKey tKey mKey : Nat)
    (net : Network) (pool : Pool) (acc : LPT)
    (hpool : pool.inited = false) (hacc : acc.inited = false)
    (happr : net.isApproved mKey) :
    (net.state = NetworkState.Inited → mKey ≠ Network.primary →
      initPool reserve lpt true true true true true true true oKey nKey pKey
        tKey mKey net pool acc = .error .NotInit) ∧
    (net.state = NetworkState.Activated → mKey = Network.primary →
      initPool reserve lpt true true true true true true true oKey nKey pKey
        tKey mKey net pool acc = .error .ConstructorOnce) ∧
    (∀ net' pool' acc',
      initPool reserve lpt true true true true true true true oKey nKey pKey
        tKey mKey net pool acc = .ok (net', pool', acc') →
      mKey = Network.primary → net'.state = NetworkState.Activated) ∧
    (∀ net' pool' acc',
      initPool reserve lpt true true true true true true true oKey nKey pKey
        tKey mKey net pool acc = .ok (net', pool', acc') →
      mKey ≠ Network.primary → net' = net) := by
  refine ⟨?_, ?_, ?_, ?_⟩
  · intro hstate hm
    unfold initPool
    rw [if_neg (by simp), if_neg (by simp [hstate]),
      if_neg (by simp [hpool, hacc]), if_neg (by simp),
      if_neg (by simp [happr]),
      if_pos ⟨hm, by simp [Network.isActivated, hstate]⟩]
  · intro hstate hm
    unfold initPool
    rw [if_neg (by simp), if_neg (by simp [hstate]),
      if_neg (by simp [hpool, hacc]), if_neg (by simp),
      if_neg (by simp [happr]),
      if_neg (by simp [hm]),
      if_pos ⟨hm, by simp [Network.isActivated, hstate]⟩]
  · intro net' pool' acc' h hm
    obtain ⟨-, -, -, -, -, hn, -, -⟩ := initPool_ok h
    rw [if_pos hm] at hn
    rw [hn]
  · intro net' pool' acc' h hm
    obtain ⟨-, -, -, -, -, hn, -, -⟩ := initPool_ok h
    rw [if_neg hm] at hn
    exact hn

/-- Witness for C6: creating the primary pool on an `Inited` network leaves
the network `Activated`. -/
theorem initPool_activation_witness :
    ({ state := NetworkState.Activated, mints := [0, 3] } : Network).state =
      NetworkState.Activated := by
  have h := (initPool_activation 10 20 1 2 5 4 0
    { state := NetworkState.Inited, mints := [0, 3] }
    { owner := 0, network := 0, mint := 0, treasury := 0, reserve := 0,
      lpt := 0, fee := 0, inited := false }
    { owner := 0, pool := 0, lpt := 0, inited := false }
    rfl rfl (by decide)).2.2.1
    { state := NetworkState.Activated, mints := [0, 3] }
    { owner := 1, network := 2, mint := 0, treasury := 4, reserve := 10,
      lpt := 20, fee := FEE, inited := true }
    { owner := 1, pool := 5, lpt := 20, inited := true }
    (by rfl) rfl
  exact h

/-- Frame property of a successful `swap` on share supplies: the handler
rewrites only `reserve` fields, so every returned pool record keeps the
`lpt` and `inited` fields of the record that was read. -/
lemma swap_ok {curve : Nat → Nat → Nat → Nat → Nat → Option Nat} {amount : Nat}
    {bp ap sp os atr str : Bool} {bidKey btk askKey atk senKey stk : Nat}
    {bid ask sen bid' ask' : Pool} {senOpt : Option Pool}
    (h : swap curve amount bp ap sp os atr str bidKey btk askKey atk senKey stk
      bid ask sen = .ok (bid', ask', senOpt)) :
    bid'.lpt = bid.lpt ∧ ask'.lpt = ask.lpt ∧
    bid'.inited = bid.inited ∧ ask'.inited = ask.inited ∧
    ∀ s, senOpt = some s → s.lpt = sen.lpt ∧ s.inited = sen.inited := by
  unfold swap at h
  split_ifs at h with h1 h2 h3 h4 h5 h6 h7 h8
  · injection h with h2
    injection h2 with hb h3
    injection h3 with ha hs
    subst hb; subst ha; subst hs
    exact ⟨rfl, rfl, rfl, rfl, fun s hs2 => nomatch hs2⟩
  · unfold swapCore at h
    obtain ⟨nbr, hm1, h⟩ := okOr_bind_ok h
    obtain ⟨nawof, hm2, h⟩ := okOr_bind_ok h
    obtain ⟨res, hm3, h⟩ := okOr_bind_ok h
    obtain ⟨nar, hm4, h⟩ := okOr_bind_ok h
    split at h
    · injection h with h2
      injection h2 with hb h3
      injection h3 with ha hs
      subst hb; subst ha; subst hs
      exact ⟨rfl, rfl, rfl, rfl, fun s hs2 => nomatch hs2⟩
    · obtain ⟨eis, hm5, h⟩ := okOr_bind_ok h
      obtain ⟨nsr, hm6, h⟩ := okOr_bind_ok h
      injection h with h2
      injection h2 with hb h3
      injection h3 with ha hs
      subst hb; subst ha; subst hs
      exact ⟨rfl, rfl, rfl, rfl, fun s hs2 => by
        cases Option.some.inj hs2.symm
        exact ⟨rfl, rfl⟩⟩

/-- The global ledger state: the decoded record stored at each address, one
map per record type.  (Distinct record types live in differently sized
accounts, so the three maps cannot alias.) -/
structure Chain where
  networks : Nat → Network
  pools : Nat → Pool
  lpts : Nat → LPT

/-- One decoded operation request together with the account keys and check
outcomes it is dispatched with (the account list of the instruction). -/
inductive Op where
  | initPoolOp (reserve lpt : Nat) (np pp lp os ps ls tr : Bool)
      (oKey nKey pKey tKey lKey mKey : Nat)
  | initLPTOp (pp lp os ls : Bool) (oKey pKey lKey : Nat)
  | addLiqOp (reserve : Nat) (pp lp os : Bool) (oKey pKey tKey lKey : Nat)
  | removeLiqOp (lpt : Nat) (pp lp os tr : Bool) (oKey pKey tKey lKey : Nat)
  | swapG (amount : Nat) (bp ap sp os atr str : Bool)
      (bidKey btk askKey atk senKey stk : Nat)
  | transferOp (lpt : Nat) (sp dp os : Bool) (oKey sKey dKey : Nat)

/-- The share-account addresses an operation reads or writes. -/
def opLptKeys : Op → List Nat
  | .initPoolOp _ _ _ _ _ _ _ _ _ _ _ _ _ lKey _ => [lKey]
  | .initLPTOp _ _ _ _ _ _ lKey => [lKey]
  | .addLiqOp _ _ _ _ _ _ _ lKey => [lKey]
  | .removeLiqOp _ _ _ _ _ _ _ _ lKey => [lKey]
  | .swapG _ _ _ _ _ _ _ _ _ _ _ _ _ => []
  | .transferOp _ _ _ _ _ sKey dKey => [sKey, dKey]

/-- Dispatch one operation against the ledger: read the records at the named
keys, run the handler, and write the returned records back in the source's
pack order (`Processor::process`).  A handler error leaves the ledger
unchanged, which is the host's rollback guarantee. -/
def execOp (curve : Nat → Nat → Nat → Nat → Nat → Option Nat) (c : Chain) :
    Op → Except AppError Chain
  | .initPoolOp reserve lpt np pp lp os ps ls tr oKey nKey pKey tKey lKey
      mKey =>
    (initPool reserve lpt np pp lp os ps ls tr oKey nKey pKey tKey mKey
        (c.networks nKey) (c.pools pKey) (c.lpts lKey)).bind fun res =>
      .ok { c with networks := Function.update c.networks nKey res.1,
                   pools := Function.update c.pools pKey res.2.1,
                   lpts := Function.update c.lpts lKey res.2.2 }
  | .initLPTOp pp lp os ls oKey pKey lKey =>
    (initLPT pp lp os ls oKey pKey (c.lpts lKey)).bind fun res =>
      .ok { c with lpts := Function.update c.lpts lKey res }
  | .addLiqOp reserve pp lp os oKey pKey tKey lKey =>
    (addLiquidity reserve pp lp os oKey pKey tKey (c.pools pKey)
        (c.lpts lKey)).bind fun res =>
      .ok { c with pools := Function.update c.pools pKey res.1,
                   lpts := Function.update c.lpts lKey res.2 }
  | .removeLiqOp lpt pp lp os tr oKey pKey tKey lKey =>
    (removeLiquidity lpt pp lp os tr oKey pKey tKey (c.pools pKey)
        (c.lpts lKey)).bind fun res =>
      .ok { c with pools := Function.update c.pools pKey res.1,
                   lpts := Function.update c.lpts lKey res.2 }
  | .swapG amount bp ap sp os atr str bidKey btk askKey atk senKey stk =>
    (swap curve amount bp ap sp os atr str bidKey btk askKey atk senKey stk
        (c.pools bidKey) (c.pools askKey) (c.pools senKey)).bind fun res =>
      match res.2.2 with
      | none =>
        .ok { c with
              pools := Function.update (Function.update c.pools bidKey res.1)
                askKey res.2.1 }
      | some s =>
        .ok { c with
              pools := Function.update (Function.update (Function.update
                c.pools bidKey res.1) askKey res.2.1) senKey s }
  | .transferOp lpt sp dp os oKey sKey dKey =>
    (transfer lpt sp dp os oKey sKey dKey (c.lpts sKey) (c.lpts dKey)).bind
      fun res =>
      .ok { c with
            lpts := Function.update (Function.update c.lpts sKey res.1) dKey
              res.2 }

lemma bind_ok_inv {α β : Type} {x : Except AppError α}
    {f : α → Except AppError β} {v : β}
    (h : x.bind f = .ok v) : ∃ a, x = .ok a ∧ f a = .ok v := by
  cases x with
  | error e => exact absurd h (by simp [Except.bind])
  | ok a => exact ⟨a, rfl, by simpa [Except.bind] using h⟩

/-- Contribution of one share-account record to the balance total of pool
`p`: its balance if it is a live account bound to `p`, else nothing. -/
def contrib (p : Nat) (a : LPT) : Nat :=
  if a.inited = true ∧ a.pool = p then a.lpt else 0

/-- Total share balance held, over the account addresses in `K`, by live
accounts bound to pool `p`. -/
def lptSum (K : Finset Nat) (f : Nat → LPT) (p : Nat) : Nat :=
  K.sum fun k => contrib p (f k)

lemma lptSum_update {K : Finset Nat} {k : Nat} (hk : k ∈ K) (f : Nat → LPT)
    (v : LPT) (p : Nat) :
    lptSum K (Function.update f k v) p + contrib p (f k) =
    lptSum K f p + contrib p v := by
  unfold lptSum
  rw [← Finset.sum_erase_add _ _ hk, ← Finset.sum_erase_add _ _ hk,
    Finset.sum_congr rfl (fun x hx => by
      rw [Function.update_noteq (Finset.ne_of_mem_erase hx)]),
    Function.update_same]
  omega

/-- C7: a `Swap(amount)` whose bid pool and ask pool are the same record,
with `amount > 0`, all three pools on the same network and all
ownership/authority checks passing, succeeds and leaves the entire ledger —
every pool, share account, and network record — exactly as it was (the
handler returns before any arithmetic or write). -/
theorem swap_samePool_noop
    (curve : Nat → Nat → Nat → Nat → Nat → Option Nat) (c : Chain)
    (amount : Nat) (ham : amount ≠ 0)
    (bidKey btk askKey atk senKey stk : Nat) (hkey : bidKey = askKey)
    (hb : (c.pools bidKey).inited = true) (ha : (c.pools askKey).inited = true)
    (hs : (c.pools senKey).inited = true)
    (hbt : (c.pools bidKey).treasury = btk)
    (hat : (c.pools askKey).treasury = atk)
    (hst : (c.pools senKey).treasury = stk)
    (hn1 : (c.pools senKey).network = (c.pools bidKey).network)
    (hn2 : (c.pools senKey).network = (c.pools askKey).network) :
    execOp curve c (.swapG amount true true true true true true bidKey btk
      askKey atk senKey stk) = .ok c := by
  simp only [execOp]
  unfold swap
  rw [if_neg (by simp), if_neg (by simp [hb]), if_neg (by simp [ha]),
    if_neg (by simp [hs]), if_neg (by simp [hbt, hat, hst]),
    if_neg (by
      have h12 := hn1.symm.trans hn2
      simp [hn1, h12]),
    if_neg (by simpa using ham), if_pos hkey]
  simp only [Except.bind]
  rw [Function.update_eq_self, Function.update_eq_self]

/-- Witness for C7 on a concrete one-pool ledger. -/
theorem swap_samePool_noop_witness :
    execOp (fun _ _ _ _ _ => none)
      { networks := fun _ =>
          { state := NetworkState.Activated, mints := [0, 3] },
        pools := fun _ =>
          { owner := 1, network := 9, mint := 3, treasury := 7, reserve := 50,
            lpt := 60, fee := FEE, inited := true },
        lpts := fun _ =>
          { owner := 1, pool := 2, lpt := 60, inited := true } }
      (.swapG 5 true true true true true true 2 7 2 7 3 7) =
    .ok
      { networks := fun _ =>
          { state := NetworkState.Activated, mints := [0, 3] },
        pools := fun _ =>
          { owner := 1, network := 9, mint := 3, treasury := 7, reserve := 50,
            lpt := 60, fee := FEE, inited := true },
        lpts := fun _ =>
          { owner := 1, pool := 2, lpt := 60, inited := true } } :=
  swap_samePool_noop (fun _ _ _ _ _ => none) _ 5 (by norm_num) 2 7 2 7 3 7
    rfl rfl rfl rfl rfl rfl rfl rfl rfl

/-- C2: share-accounting conservation.  For every pool address `p` and every
successful operation (`InitializePool`, `InitializeLPT`, `AddLiquidity`,
`RemoveLiquidity`, `Swap`, `Transfer`), the total balance of the live share
accounts bound to `p` (summed over any address universe `K` containing the
accounts the operation touches) equals `p`'s recorded total supply after the
operation exactly when it did before: each operation moves `pool.lpt` and
the bound accounts' balances by the same total amount.  `hzero` reflects
that a not-yet-set-up pool record decodes from zeroed account storage. -/
theorem lpt_share_conservation
    (curve : Nat → Nat → Nat → Nat → Nat → Option Nat)
    (c c' : Chain) (op : Op) (K : Finset Nat)
    (hzero : ∀ k, (c.pools k).inited = false → (c.pools k).lpt = 0)
    (hkeys : ∀ k, k ∈ opLptKeys op → k ∈ K)
    (hok : execOp curve c op = .ok c') (p : Nat) :
    (lptSum K c'.lpts p = (c'.pools p).lpt ↔
     lptSum K c.lpts p = (c.pools p).lpt) := by
  cases op with
  | initPoolOp reserve lpt np pp lp os ps ls tr oKey nKey pKey tKey lKey
      mKey =>
    simp only [execOp] at hok
    obtain ⟨res, hh, hc⟩ := bind_ok_inv hok
    obtain ⟨net', pool', acc'⟩ := res
    cases Except.ok.inj hc
    obtain ⟨hpi, hai, hr, hl, hnu, hn, hp2, ha2⟩ := initPool_ok hh
    subst hp2; subst ha2
    have hlk : lKey ∈ K := hkeys lKey (by simp [opLptKeys])
    have hup := lptSum_update hlk c.lpts
      { owner := oKey, pool := pKey, lpt := lpt, inited := true } p
    have hco : contrib p (c.lpts lKey) = 0 := by simp [contrib, hai]
    dsimp only
    by_cases hpk : p = pKey
    · subst hpk
      have hzp : (c.pools p).lpt = 0 := hzero p hpi
      have hcn : contrib p
          { owner := oKey, pool := p, lpt := lpt, inited := true } = lpt := by
        simp [contrib]
      rw [hco, hcn] at hup
      rw [Function.update_same, hzp]
      dsimp only
      omega
    · have hcn : contrib p
          { owner := oKey, pool := pKey, lpt := lpt, inited := true } = 0 := by
        simp [contrib, Ne.symm hpk]
      rw [hco, hcn] at hup
      rw [Function.update_noteq hpk]
      have hSS : lptSum K (Function.update c.lpts lKey
          { owner := oKey, pool := pKey, lpt := lpt, inited := true }) p =
          lptSum K c.lpts p := by omega
      rw [hSS]
  | initLPTOp pp lp os ls oKey pKey lKey =>
    simp only [execOp] at hok
    obtain ⟨res, hh, hc⟩ := bind_ok_inv hok
    cases Except.ok.inj hc
    obtain ⟨hai, ha2⟩ := initLPT_ok hh
    subst ha2
    have hlk : lKey ∈ K := hkeys lKey (by simp [opLptKeys])
    have hup := lptSum_update hlk c.lpts
      { owner := oKey, pool := pKey, lpt := 0, inited := true } p
    have hco : contrib p (c.lpts lKey) = 0 := by simp [contrib, hai]
    have hcn : contrib p
        { owner := oKey, pool := pKey, lpt := 0, inited := true } = 0 := by
      simp [contrib]
    rw [hco, hcn] at hup
    dsimp only
    have hSS : lptSum K (Function.update c.lpts lKey
        { owner := oKey, pool := pKey, lpt := 0, inited := true }) p =
        lptSum K c.lpts p := by omega
    rw [hSS]
  | addLiqOp reserve pp lp os oKey pKey tKey lKey =>
    simp only [execOp] at hok
    obtain ⟨res, hh, hc⟩ := bind_ok_inv hok
    obtain ⟨pool', acc'⟩ := res
    cases Except.ok.inj hc
    obtain ⟨hpi, hai, hap, hr0, hrz, hw, hp2, ha2⟩ := addLiquidity_ok hh
    have hplpt : pool'.lpt = (c.pools pKey).lpt +
        (c.pools pKey).lpt * reserve / (c.pools pKey).reserve := by rw [hp2]
    have halpt : acc'.lpt = (c.lpts lKey).lpt +
        (c.pools pKey).lpt * reserve / (c.pools pKey).reserve := by rw [ha2]
    have hapool : acc'.pool = pKey := by rw [ha2]; exact hap
    have haini : acc'.inited = true := by rw [ha2]; exact hai
    have hlk : lKey ∈ K := hkeys lKey (by simp [opLptKeys])
    have hup := lptSum_update hlk c.lpts acc' p
    dsimp only
    by_cases hpk : p = pKey
    · subst hpk
      have hco : contrib p (c.lpts lKey) = (c.lpts lKey).lpt := by
        simp [contrib, hai, hap]
      have hcn : contrib p acc' = acc'.lpt := by
        simp [contrib, haini, hapool]
      rw [hco, hcn, halpt] at hup
      rw [Function.update_same, hplpt]
      omega
    · have hco : contrib p (c.lpts lKey) = 0 := by
        simp [contrib, hap, Ne.symm hpk]
      have hcn : contrib p acc' = 0 := by
        simp [contrib, hapool, Ne.symm hpk]
      rw [hco, hcn] at hup
      rw [Function.update_noteq hpk]
      omega
  | removeLiqOp lpt pp lp os tr oKey pKey tKey lKey =>
    simp only [execOp] at hok
    obtain ⟨res, hh, hc⟩ := bind_ok_inv hok
    obtain ⟨pool', acc'⟩ := res
    cases Except.ok.inj hc
    obtain ⟨hpi, hai, hap, hl0, hbal, hplz, hple, hpay, hp2, ha2⟩ :=
      removeLiquidity_ok hh
    have hplpt : pool'.lpt = (c.pools pKey).lpt - lpt := by rw [hp2]
    have halpt : acc'.lpt = (c.lpts lKey).lpt - lpt := by rw [ha2]
    have hapool : acc'.pool = pKey := by rw [ha2]; exact hap
    have haini : acc'.inited = true := by rw [ha2]; exact hai
    have hlk : lKey ∈ K := hkeys lKey (by simp [opLptKeys])
    have hup := lptSum_update hlk c.lpts acc' p
    dsimp only
    by_cases hpk : p = pKey
    · subst hpk
      have hco : contrib p (c.lpts lKey) = (c.lpts lKey).lpt := by
        simp [contrib, hai, hap]
      have hcn : contrib p acc' = acc'.lpt := by
        simp [contrib, haini, hapool]
      rw [hco, hcn, halpt] at hup
      rw [Function.update_same, hplpt]
      omega
    · have hco : contrib p (c.lpts lKey) = 0 := by
        simp [contrib, hap, Ne.symm hpk]
      have hcn : contrib p acc' = 0 := by
        simp [contrib, hapool, Ne.symm hpk]
      rw [hco, hcn] at hup
      rw [Function.update_noteq hpk]
      omega
  | swapG amount bp ap sp os atr str bidKey btk askKey atk senKey stk =>
    simp only [execOp] at hok
    obtain ⟨res, hh, hc⟩ := bind_ok_inv hok
    obtain ⟨bid', ask', senOpt⟩ := res
    obtain ⟨hbl, hal, hbi, hati, hsen⟩ := swap_ok hh
    cases senOpt with
    | none =>
      cases Except.ok.inj hc
      dsimp only
      have hpool : ((Function.update (Function.update c.pools bidKey bid')
          askKey ask') p).lpt = (c.pools p).lpt := by
        by_cases h1 : p = askKey
        · subst h1; rw [Function.update_same, hal]
        · rw [Function.update_noteq h1]
          by_cases h2 : p = bidKey
          · subst h2; rw [Function.update_same, hbl]
          · rw [Function.update_noteq h2]
      rw [hpool]
    | some s =>
      obtain ⟨hsl, -⟩ := hsen s rfl
      cases Except.ok.inj hc
      dsimp only
      have hpool : ((Function.update (Function.update (Function.update c.pools
          bidKey bid') askKey ask') senKey s) p).lpt = (c.pools p).lpt := by
        by_cases h0 : p = senKey
        · subst h0; rw [Function.update_same, hsl]
        · rw [Function.update_noteq h0]
          by_cases h1 : p = askKey
          · subst h1; rw [Function.update_same, hal]
          · rw [Function.update_noteq h1]
            by_cases h2 : p = bidKey
            · subst h2; rw [Function.update_same, hbl]
            · rw [Function.update_noteq h2]
      rw [hpool]
  | transferOp lpt sp dp os oKey sKey dKey =>
    simp only [execOp] at hok
    obtain ⟨res, hh, hc⟩ := bind_ok_inv hok
    obtain ⟨src', dst'⟩ := res
    cases Except.ok.inj hc
    obtain ⟨hsi, hdi, hsd, hl0, hbal, hcase⟩ := transfer_ok hh
    have hsk : sKey ∈ K := hkeys sKey (by simp [opLptKeys])
    have hdk : dKey ∈ K := hkeys dKey (by simp [opLptKeys])
    dsimp only
    rcases hcase with ⟨heq, hs2, hd2⟩ | ⟨hne, hs2, hd2⟩
    · subst hs2; subst hd2
      have hfun : ∀ q, Function.update (Function.update c.lpts sKey
          (c.lpts sKey)) dKey (c.lpts dKey) q = c.lpts q := by
        intro q
        by_cases h1 : q = dKey
        · subst h1; rw [Function.update_same]
        · rw [Function.update_noteq h1]
          by_cases h2 : q = sKey
          · subst h2; rw [Function.update_same]
          · rw [Function.update_noteq h2]
      have hSS : lptSum K (Function.update (Function.update c.lpts sKey
          (c.lpts sKey)) dKey (c.lpts dKey)) p = lptSum K c.lpts p :=
        Finset.sum_congr rfl (fun k _ => by rw [hfun k])
      rw [hSS]
    · have hslpt : src'.lpt = (c.lpts sKey).lpt - lpt := by rw [hs2]
      have hspool : src'.pool = (c.lpts sKey).pool := by rw [hs2]
      have hsini : src'.inited = true := by rw [hs2]; exact hsi
      have hdlpt : dst'.lpt = (c.lpts dKey).lpt + lpt := by rw [hd2]
      have hdpool : dst'.pool = (c.lpts dKey).pool := by rw [hd2]
      have hdini : dst'.inited = true := by rw [hd2]; exact hdi
      have hA := lptSum_update hsk c.lpts src' p
      have hB := lptSum_update hdk (Function.update c.lpts sKey src') dst' p
      rw [Function.update_noteq (Ne.symm hne)] at hB
      by_cases hpp : (c.lpts sKey).pool = p
      · have hdp : (c.lpts dKey).pool = p := by rw [← hsd]; exact hpp
        have hc1 : contrib p (c.lpts sKey) = (c.lpts sKey).lpt := by
          simp [contrib, hsi, hpp]
        have hc2 : contrib p src' = src'.lpt := by
          simp [contrib, hsini, hspool, hpp]
        have hc3 : contrib p (c.lpts dKey) = (c.lpts dKey).lpt := by
          simp [contrib, hdi, hdp]
        have hc4 : contrib p dst' = dst'.lpt := by
          simp [contrib, hdini, hdpool, hdp]
        rw [hc1, hc2, hslpt] at hA
        rw [hc3, hc4, hdlpt] at hB
        have hSS : lptSum K (Function.update (Function.update c.lpts sKey
            src') dKey dst') p = lptSum K c.lpts p := by omega
        rw [hSS]
      · have hdp : ¬ (c.lpts dKey).pool = p := by rw [← hsd]; exact hpp
        have hc1 : contrib p (c.lpts sKey) = 0 := by simp [contrib, hpp]
        have hc2 : contrib p src' = 0 := by simp [contrib, hspool, hpp]
        have hc3 : contrib p (c.lpts dKey) = 0 := by simp [contrib, hdp]
        have hc4 : contrib p dst' = 0 := by simp [contrib, hdpool, hdp]
        rw [hc1, hc2] at hA
        rw [hc3, hc4] at hB
        have hSS : lptSum K (Function.update (Function.update c.lpts sKey
            src') dKey dst') p = lptSum K c.lpts p := by omega
        rw [hSS]

/-- A concrete two-account ledger used to witness the conservation theorem. -/
def wAcc0 : LPT := { owner := 1, pool := 10, lpt := 60, inited := true }

def wAcc1 : LPT := { owner := 2, pool := 10, lpt := 40, inited := true }

def wChain : Chain :=
  { networks := fun _ => { state := NetworkState.Activated, mints := [0, 3] },
    pools := fun _ =>
      { owner := 1, network := 5, mint := 3, treasury := 7, reserve := 100,
        lpt := 100, fee := FEE, inited := true },
    lpts := fun k => if k = 0 then wAcc0 else wAcc1 }

def wChain2 : Chain :=
  { wChain with
    lpts := Function.update (Function.update wChain.lpts 0
      { owner := 1, pool := 10, lpt := 50, inited := true }) 1
      { owner := 2, pool := 10, lpt := 50, inited := true } }

/-- Witness for C2: a `Transfer(10)` between the two accounts of pool 10
preserves the balance-sum identity. -/
theorem lpt_share_conservation_witness :
    (lptSum {0, 1} wChain2.lpts 10 = (wChain2.pools 10).lpt ↔
     lptSum {0, 1} wChain.lpts 10 = (wChain.pools 10).lpt) :=
  lpt_share_conservation (fun _ _ _ _ _ => none) wChain wChain2
    (.transferOp 10 true true true 1 0 1) {0, 1}
    (fun _ h => nomatch h)
    (by
      intro k hk
      simp only [opLptKeys, List.mem_cons, List.not_mem_nil, or_false] at hk
      rcases hk with h | h <;> simp [h])
    (by rfl) 10
